import Mathlib

/-!
Formal model of `compte_weak_scaling.py`, a post-processing tool that parses a
FLASH simulation log and reconstructs (a) contiguous blocks of time-stepping
lines and (b) checkpoint/plot file-I/O events, together with derived
performance statistics.

Embedding conventions:
* Timestamps (`datetime` values) are modelled as exact rationals (seconds,
  with sub-second precision); `datetime` subtraction and
  `timedelta.total_seconds()` are exact at microsecond resolution, so this is
  faithful.
* Python's dynamically typed `FLASHLogFileIO.wall_time` attribute (an `int`
  at construction, a `datetime` after an open marker, then a float number of
  seconds after a close marker) is modelled by the sum type `WTVal`; the
  `TypeError` raised by `datetime - int` is made explicit through `Except`.
* The lines consumed by the simulation-parameter scan are modelled as actual
  character lists, with `re.search` of a literal label modelled as substring
  search and `int(re.findall(r"\d+", line)[0])` as the first maximal digit
  run.  The lines consumed by the region state machine are modelled by the
  structure `LogLine`, which records exactly the facts the source's regular
  expressions extract from one line: the optional step `(timestamp, dt)`
  pair, whether the line mentions `IO_writeCheckpoint` or `IO_writePlotfile`,
  which of the labels `open:` / `close:` occurs (the source tests `open:`
  first, so a line carrying both behaves as an open), and the embedded
  timestamp.  Every checkpoint/plot line in a FLASH log embeds a timestamp,
  which is why `LogLine` carries it as a total field.
* `np.std` is the square root of the population variance; the square root of
  a rational is irrational in general, so the block record carries the
  variance (fields suffixed `_sq`), of which the source's `std_...` fields
  are the square root.  No statement below concerns the value of a standard
  deviation.
* `np.mean` of an empty list is NaN; `qmean` returns `0/0 = 0` there.  No
  statement below concerns the mean of an empty list.
-/

/-- Errors raised by the Python runtime that the model makes explicit:
`TypeError` (unsupported operand types) and `IndexError` (empty
`re.findall` result indexed at 0). -/
inductive PyErr where
  | typeError
  | indexError
  deriving DecidableEq

/-- Is the result an error?  (A raised, uncaught Python exception.) -/
def isErr {α : Type} : Except PyErr α → Bool
  | .error _ => true
  | .ok _ => false

/-- Substring occurrence test on character lists: the model of
`re.search(label, line)` for a literal label with no metacharacters. -/
def containsSub (pat : List Char) : List Char → Bool
  | [] => pat.isEmpty
  | c :: rest => pat.isPrefixOf (c :: rest) || containsSub pat rest

/-- Decimal value of a digit run. -/
def digitsToNat (ds : List Char) : Nat :=
  ds.foldl (fun a c => a * 10 + (c.toNat - 48)) 0

/-- First maximal digit run in the line, as a number: the model of
`int(re.findall(r"\d+", line)[0])`, or `none` when the line holds no digit
(in which case the source's indexing `[0]` raises `IndexError`). -/
def firstNat : List Char → Option Nat
  | [] => none
  | c :: rest =>
      if c.isDigit then some (digitsToNat (List.takeWhile Char.isDigit (c :: rest)))
      else firstNat rest

/-- Label whose presence identifies the core-count line. -/
def coreLabel : List Char := "Number of MPI tasks:".toList

/-- Label of the x-axis block cell count line. -/
def xLabel : List Char := "Number x zones:".toList

/-- Label of the y-axis block cell count line. -/
def yLabel : List Char := "Number y zones:".toList

/-- Label of the z-axis block cell count line. -/
def zLabel : List Char := "Number z zones:".toList

/-- `seconds_per_hour` global of the source. -/
def seconds_per_hour : ℚ := 3600

/-- Cores per node for the sites `superMUC-NG` and `Gadi`
(`self.n_cores_per_node = 48` in `FLASHLogStats.__init__`). -/
def n_cores_per_node : ℚ := 48

/-- The mutable simulation-parameter fields of `FLASHLogStats` that the first
pass populates (`None` until found). -/
structure ScanState where
  n_cores : Option Nat
  nodes : Option ℚ
  nxb : Option Nat
  nyb : Option Nat
  nzb : Option Nat
  deriving DecidableEq

/-- All parameter fields start as `None`. -/
def ScanState.init : ScanState :=
  { n_cores := none, nodes := none, nxb := none, nyb := none, nzb := none }

/-- `FLASHLogStats.search_core_count`: when the line carries the MPI-task
label, read its first integer (raising `IndexError` when there is none, as
`match_obj[0]` would) and derive the node count `n_cores / 48`. -/
def search_core_count (line : List Char) : Except PyErr (Option (Nat × ℚ)) :=
  if containsSub coreLabel line then
    match firstNat line with
    | some n => .ok (some (n, (n : ℚ) / n_cores_per_node))
    | none => .error .indexError
  else .ok none

/-- `FLASHLogStats.search_block_cell_count`: when the line carries the given
axis label, return its first integer, else `None`. -/
def search_block_cell_count (line block_string : List Char) : Except PyErr (Option Nat) :=
  if containsSub block_string line then
    match firstNat line with
    | some n => .ok (some n)
    | none => .error .indexError
  else .ok none

/-- The `if self.n_cores is None: self.search_core_count(cnt, line)` step of
the first pass. -/
def upd_core (st : ScanState) (line : List Char) : Except PyErr ScanState :=
  if st.n_cores.isNone then
    match search_core_count line with
    | .error e => .error e
    | .ok none => .ok st
    | .ok (some (n, nd)) => .ok { st with n_cores := some n, nodes := some nd }
  else .ok st

/-- The `if self.nxb is None: self.nxb = self.search_block_cell_count(...)`
step of the first pass. -/
def upd_nxb (st : ScanState) (line : List Char) : Except PyErr ScanState :=
  if st.nxb.isNone then
    match search_block_cell_count line xLabel with
    | .error e => .error e
    | .ok r => .ok { st with nxb := r }
  else .ok st

/-- As `upd_nxb`, for the y axis. -/
def upd_nyb (st : ScanState) (line : List Char) : Except PyErr ScanState :=
  if st.nyb.isNone then
    match search_block_cell_count line yLabel with
    | .error e => .error e
    | .ok r => .ok { st with nyb := r }
  else .ok st

/-- As `upd_nxb`, for the z axis. -/
def upd_nzb (st : ScanState) (line : List Char) : Except PyErr ScanState :=
  if st.nzb.isNone then
    match search_block_cell_count line zLabel with
    | .error e => .error e
    | .ok r => .ok { st with nzb := r }
  else .ok st

/-- One line of the parameter scan: the body of the `while line:` loop of
`compute_sim_parameters`, i.e. the four guarded updates in source order. -/
def scanStep (st : ScanState) (line : List Char) : Except PyErr ScanState :=
  match upd_core st line with
  | .error e => .error e
  | .ok st1 =>
      match upd_nxb st1 line with
      | .error e => .error e
      | .ok st2 =>
          match upd_nyb st2 line with
          | .error e => .error e
          | .ok st3 => upd_nzb st3 line

/-- The whole forward pass of the parameter scan. -/
def scanAll : ScanState → List (List Char) → Except PyErr ScanState
  | st, [] => .ok st
  | st, l :: ls =>
      match scanStep st l with
      | .error e => .error e
      | .ok st1 => scanAll st1 ls

/-- The simulation parameters after a successful `compute_sim_parameters`. -/
structure SimParams where
  n_cores : Nat
  nodes : Option ℚ
  nxb : Nat
  nyb : Nat
  nzb : Nat
  n_cells_per_block : Nat
  n_cells : Nat
  deriving DecidableEq

/-- `FLASHLogStats.compute_sim_parameters`: run the scan over every line,
then form `n_cells_per_block = nxb * nyb * nzb` and
`n_cells = n_cells_per_block * n_cores`.  In the source these two products
raise `TypeError` (`NoneType` operand) as soon as one of the four required
fields was never populated; the model returns that error explicitly. -/
def compute_sim_parameters (raw : List (List Char)) : Except PyErr SimParams :=
  match scanAll ScanState.init raw with
  | .error e => .error e
  | .ok st =>
      match st.nxb, st.nyb, st.nzb with
      | some x, some y, some z =>
          match st.n_cores with
          | some c =>
              .ok { n_cores := c,
                    nodes := st.nodes,
                    nxb := x,
                    nyb := y,
                    nzb := z,
                    n_cells_per_block := x * y * z,
                    n_cells := x * y * z * c }
          | none => .error .typeError
      | _, _, _ => .error .typeError

/-- The value held by the dynamically typed `FLASHLogFileIO.wall_time`
attribute: the integer `0` from the constructor, a `datetime` after an open
marker, or a float number of seconds after a close marker. -/
inductive WTVal where
  | intVal (n : Int)
  | dtVal (t : ℚ)
  | secsVal (s : ℚ)
  deriving DecidableEq

/-- Numeric content of a `WTVal` (used only to phrase statements without an
existential; on finalized events the value is always a `secsVal`). -/
def secsOf : WTVal → ℚ
  | .intVal n => (n : ℚ)
  | .dtVal t => t
  | .secsVal s => s

/-- Kind tag written into `FLASHLogFileIO.file_type` (the source uses the
strings `""`, `"chk"` and `"plt"`). -/
inductive FileKind where
  | unset
  | chk
  | plt
  deriving DecidableEq

/-- The class `FLASHLogFileIO`: one checkpoint/plot file-write event.
`start_date` is `""` (here `none`) until an open marker is seen.  The Python
attributes `open` and `close` are named `open_flag` and `close_flag` here
(`open` is a Lean keyword). -/
structure FileIOEvent where
  start_date : Option ℚ
  write_id : Nat
  wall_time : WTVal
  wall_time_norm : ℚ
  file_type : FileKind
  core_hours : ℚ
  open_flag : Bool
  close_flag : Bool
  deriving DecidableEq

/-- `FLASHLogFileIO.__init__(write_id)`. -/
def FileIOEvent.init (write_id : Nat) : FileIOEvent :=
  { start_date := none, write_id := write_id, wall_time := .intVal 0,
    wall_time_norm := 0, file_type := .unset, core_hours := 0,
    open_flag := false, close_flag := false }

/-- `FLASHLogFileIO.empty`: reset every attribute except `write_id`. -/
def FileIOEvent.empty (f : FileIOEvent) : FileIOEvent :=
  FileIOEvent.init f.write_id

/-- `FLASHLogFileIO.open_file`: set `open`; clear `close` if it was set. -/
def FileIOEvent.open_file (f : FileIOEvent) : FileIOEvent :=
  let f1 := { f with open_flag := true }
  if f1.close_flag then { f1 with close_flag := false } else f1

/-- `FLASHLogFileIO.close_file`: set `close`; clear `open` if it was set. -/
def FileIOEvent.close_file (f : FileIOEvent) : FileIOEvent :=
  let f1 := { f with close_flag := true }
  if f1.open_flag then { f1 with open_flag := false } else f1

/-- The class `FLASHLogBlock`: one contiguous block of time-stepping lines.
`wall_time` and `dt` start as the integer `0` in Python and are overwritten
with the accumulated lists at finalization; the model gives them list type
from the start.  The fields `std_wall_time_diff_sq` and
`std_wall_time_norm_sq` hold the squares (population variances) of the
source's `std_wall_time_diff` and `std_wall_time_norm` (see the module
comment).  `avg_wall_time_diff_norm` and `std_wall_time_diff_norm` are the
vestigial attributes that `__init__` creates and nothing ever writes; the
attributes written at finalization are `avg_wall_time_norm` and
`std_wall_time_norm`. -/
structure FLASHLogBlock where
  block_id : Nat
  core_hours : ℚ
  wall_time : List ℚ
  avg_wall_time_diff : ℚ
  std_wall_time_diff_sq : ℚ
  avg_wall_time_diff_norm : ℚ
  std_wall_time_diff_norm : ℚ
  avg_wall_time_norm : ℚ
  std_wall_time_norm_sq : ℚ
  dt : List ℚ
  start_date : ℚ
  end_date : ℚ
  start_line : Nat
  end_line : Nat
  n_steps : Int
  deriving DecidableEq

/-- `FLASHLogBlock.__init__(block_id)` followed by the two assignments
`block.start_date = wall_time; block.start_line = cnt` performed where the
block is opened in `deconstruct_log_file`. -/
def FLASHLogBlock.init (block_id : Nat) (wall_time : ℚ) (cnt : Nat) : FLASHLogBlock :=
  { block_id := block_id, core_hours := 0, wall_time := [],
    avg_wall_time_diff := 0, std_wall_time_diff_sq := 0,
    avg_wall_time_diff_norm := 0, std_wall_time_diff_norm := 0,
    avg_wall_time_norm := 0, std_wall_time_norm_sq := 0, dt := [],
    start_date := wall_time, end_date := 0, start_line := cnt, end_line := 0,
    n_steps := 0 }

/-- Which of the labels `open:` / `close:` the line carries (the source tests
them in this order, so `mopen` also covers a line carrying both). -/
inductive IOMk where
  | mopen
  | mclose
  | mnone
  deriving DecidableEq

/-- One line of the log, as seen by the region state machine: exactly the
facts the source's pattern extractors can read off it (see the module
comment). -/
structure LogLine where
  step : Option (ℚ × ℚ)
  isChk : Bool
  isPlt : Bool
  marker : IOMk
  iot : ℚ
  deriving DecidableEq

/-- `FLASHLogStats.search_walltime`: the `(timestamp, dt)` pair of a step
line (`n=<int>` present), else `None`. -/
def search_walltime (l : LogLine) : Option (ℚ × ℚ) := l.step

/-- `np.diff` over the timestamp list followed by the
`total_seconds()` conversion loop of `process_block_statistics`: the list of
consecutive timestamp differences, in seconds. -/
def stepsPerTimeSecs : List ℚ → List ℚ
  | a :: b :: rest => (b - a) :: stepsPerTimeSecs (b :: rest)
  | _ => []

/-- `np.mean` on a rational list (`0` on the empty list, where NumPy yields
NaN; no statement below evaluates that case). -/
def qmean (l : List ℚ) : ℚ := l.sum / l.length

/-- Population variance, the square of `np.std`. -/
def qvar (l : List ℚ) : ℚ := qmean (l.map (fun x => (x - qmean l) ^ 2))

/-- `FLASHLogStats.search_file_write_stats`: on an `open:` marker, empty the
event if it was already open, mark it open and record the timestamp; on a
`close:` marker, mark it closed, overwrite `wall_time` with the duration in
seconds and derive `core_hours`.  The subtraction
`wall_time - fileIO.wall_time` is only defined when the stored value is a
`datetime`; on the constructor's integer `0` (or a float) Python raises
`TypeError`. -/
def search_file_write_stats (l : LogLine) (f0 : FileIOEvent) : Except PyErr FileIOEvent :=
  let wall_time := l.iot
  match l.marker with
  | .mopen =>
      let f1 := if f0.open_flag then f0.empty else f0
      let f2 := f1.open_file
      .ok { f2 with start_date := some wall_time, wall_time := .dtVal wall_time }
  | .mclose =>
      let f1 := f0.close_file
      match f1.wall_time with
      | .dtVal t0 =>
          let s := wall_time - t0
          .ok { f1 with wall_time := .secsVal s, core_hours := s / seconds_per_hour }
      | _ => .error .typeError
  | .mnone => .ok f0

/-- `FLASHLogStats.process_block_statistics`: finalize a block from the
accumulated lists, with `cnt` the (1-based) number of the terminating
non-step line. -/
def process_block_statistics (n_cores n_cells_per_block : ℚ) (block : FLASHLogBlock)
    (wall_time_list : List ℚ) (cnt : Nat) (dt_list : List ℚ) : FLASHLogBlock :=
  let end_date := wall_time_list.getLastD 0
  let end_line := cnt - 1
  let steps_per_time_secs := stepsPerTimeSecs wall_time_list
  { block with
    end_date := end_date,
    end_line := end_line,
    n_steps := (end_line : Int) - (block.start_line : Int),
    wall_time := wall_time_list,
    dt := dt_list,
    core_hours := (end_date - block.start_date) * n_cores,
    avg_wall_time_diff := qmean steps_per_time_secs,
    std_wall_time_diff_sq := qvar steps_per_time_secs,
    avg_wall_time_norm := qmean steps_per_time_secs / n_cells_per_block,
    std_wall_time_norm_sq := qvar steps_per_time_secs / n_cells_per_block ^ 2 }

/-- The local state of `deconstruct_log_file`'s read loop together with the
two result stores of `FLASHLogStats`.  `fio` is the local variable `fileIO`
(unbound in Python until the first checkpoint/plot line, hence an `Option`),
`block` the local `block`.  The stores are insertion-ordered association
lists keyed by the id counters. -/
structure DState where
  chunk : Bool
  write : Bool
  IO_id_counter : Nat
  block_id_counter : Nat
  wall_time_list : List ℚ
  dt_list : List ℚ
  fio : Option FileIOEvent
  block : Option FLASHLogBlock
  blocks : List (Nat × FLASHLogBlock)
  fileIOs : List (Nat × FileIOEvent)
  deriving DecidableEq

/-- The loop state on entry to `deconstruct_log_file`. -/
def DState.init : DState :=
  { chunk := false, write := false, IO_id_counter := 0, block_id_counter := 0,
    wall_time_list := [], dt_list := [], fio := none, block := none,
    blocks := [], fileIOs := [] }

/-- The `if args["file_writes"]:` branch of the read loop: drive the
file-I/O tracker with the current line.  The two branches marked
`unreachable` mirror code paths Python cannot take (`fileIO` is always bound
when `write` is true); the model leaves the state unchanged there. -/
def stepFileWrites (file_writes : Bool) (n_cells_per_block : ℚ) (st : DState)
    (l : LogLine) : Except PyErr DState :=
  if file_writes then
    if l.isChk || l.isPlt then
      if st.write then
        match st.fio with
        | none => .ok st
        | some f0 =>
            match search_file_write_stats l f0 with
            | .error e => .error e
            | .ok f =>
                if f.close_flag then
                  match f.wall_time with
                  | .secsVal s =>
                      let f2 := { f with
                                  file_type := if l.isChk then FileKind.chk else FileKind.plt,
                                  wall_time_norm := s / n_cells_per_block }
                      .ok { st with
                            fio := some f2,
                            write := false,
                            fileIOs := st.fileIOs ++ [(st.IO_id_counter, f2)],
                            IO_id_counter := st.IO_id_counter + 1 }
                  | .intVal n =>
                      let f2 := { f with
                                  file_type := if l.isChk then FileKind.chk else FileKind.plt,
                                  wall_time_norm := (n : ℚ) / n_cells_per_block }
                      .ok { st with
                            fio := some f2,
                            write := false,
                            fileIOs := st.fileIOs ++ [(st.IO_id_counter, f2)],
                            IO_id_counter := st.IO_id_counter + 1 }
                  | .dtVal _ => .error .typeError
                else .ok { st with fio := some f }
      else
        match search_file_write_stats l (FileIOEvent.init st.IO_id_counter) with
        | .error e => .error e
        | .ok f => .ok { st with write := true, fio := some f }
    else .ok st
  else .ok st

/-- The `if args["blocks"]:` branch of the read loop: drive the block tracker
with the current line (`cnt` is the 1-based line number). -/
def stepBlocks (blocks_flag : Bool) (n_cores n_cells_per_block : ℚ) (st : DState)
    (cnt : Nat) (l : LogLine) : DState :=
  if blocks_flag then
    match search_walltime l with
    | some (wall_time, dt) =>
        let st1 :=
          if st.chunk then st
          else { st with
                 block := some (FLASHLogBlock.init st.block_id_counter wall_time cnt),
                 chunk := true }
        { st1 with
          wall_time_list := st1.wall_time_list ++ [wall_time],
          dt_list := st1.dt_list ++ [dt] }
    | none =>
        if st.chunk then
          match st.block with
          | none => st
          | some b =>
              let b2 := process_block_statistics n_cores n_cells_per_block b
                st.wall_time_list cnt st.dt_list
              { st with
                blocks := st.blocks ++ [(st.block_id_counter, b2)],
                block_id_counter := st.block_id_counter + 1,
                wall_time_list := [],
                dt_list := [],
                chunk := false,
                block := some b2 }
        else st
  else st

/-- One full iteration of the read loop of `deconstruct_log_file`: the
file-writes branch, then the blocks branch, on the same line. -/
def stepLine (file_writes blocks_flag : Bool) (n_cores n_cells_per_block : ℚ)
    (st : DState) (cnt : Nat) (l : LogLine) : Except PyErr DState :=
  match stepFileWrites file_writes n_cells_per_block st l with
  | .error e => .error e
  | .ok st1 => .ok (stepBlocks blocks_flag n_cores n_cells_per_block st1 cnt l)

/-- The read loop from a given state and line number.  Note the faithful
absence of any flush after the last line: when the loop runs out of lines,
an open block or event is simply left in the loop state. -/
def runFrom (file_writes blocks_flag : Bool) (n_cores n_cells_per_block : ℚ) :
    DState → Nat → List LogLine → Except PyErr DState
  | st, _, [] => .ok st
  | st, cnt, l :: ls =>
      match stepLine file_writes blocks_flag n_cores n_cells_per_block st cnt l with
      | .error e => .error e
      | .ok st1 => runFrom file_writes blocks_flag n_cores n_cells_per_block st1 (cnt + 1) ls

/-- `FLASHLogStats.deconstruct_log_file`: the whole second pass, starting
from the initial loop state with the line counter at 1. -/
def deconstruct_log_file (file_writes blocks_flag : Bool)
    (n_cores n_cells_per_block : ℚ) (lines : List LogLine) : Except PyErr DState :=
  runFrom file_writes blocks_flag n_cores n_cells_per_block DState.init 1 lines

/-- The per-file behaviour of `main`: `compute_sim_parameters` first, and the
region pass only if the scan succeeded (an exception in the scan propagates
out of `main` before `deconstruct_log_file` is ever entered). -/
def process_file (file_writes blocks_flag : Bool) (raw : List (List Char))
    (lines : List LogLine) : Except PyErr DState :=
  match compute_sim_parameters raw with
  | .error e => .error e
  | .ok p =>
      deconstruct_log_file file_writes blocks_flag (p.n_cores : ℚ)
        (p.n_cells_per_block : ℚ) lines

/-- The block core-hours column of `create_dataset`:
`self.blocks[key].core_hours.total_seconds() / seconds_per_hour`. -/
def exported_core_hours (b : FLASHLogBlock) : ℚ := b.core_hours / seconds_per_hour

/-- Projection out of a successful run (initial state on error); used to
phrase closed statements without an existential. -/
def okSt : Except PyErr DState → DState
  | .ok st => st
  | .error _ => DState.init

/-- Projection out of a successful scan. -/
def okScan : Except PyErr ScanState → ScanState
  | .ok st => st
  | .error _ => ScanState.init

/-- Projection out of a successful parameter computation. -/
def paramsOf : Except PyErr SimParams → SimParams
  | .ok p => p
  | .error _ =>
      { n_cores := 0, nodes := none, nxb := 0, nyb := 0, nzb := 0,
        n_cells_per_block := 0, n_cells := 0 }

/-- The value of the local `fileIO` right after a (re-)open at timestamp `t`:
a pristine event of the same `write_id`, opened, stamped `t`. -/
def openedEvent (write_id : Nat) (t : ℚ) : FileIOEvent :=
  { FileIOEvent.init write_id with
    open_flag := true, start_date := some t, wall_time := .dtVal t }

/-- An abstract `open_file` / `close_file` call. -/
inductive FOp where
  | opn
  | cls
  deriving DecidableEq

/-- Apply a sequence of `open_file` / `close_file` calls to an event. -/
def applyOps (f : FileIOEvent) : List FOp → FileIOEvent
  | [] => f
  | .opn :: ops => applyOps f.open_file ops
  | .cls :: ops => applyOps f.close_file ops

/-- First retained core count: the first integer of the first line carrying
the MPI-task label (specification of the scan's first-hit-wins policy). -/
def firstCore : List (List Char) → Option Nat
  | [] => none
  | l :: ls => if containsSub coreLabel l then firstNat l else firstCore ls

/-- First retained cell count for a given axis label. -/
def firstZone (lab : List Char) : List (List Char) → Option Nat
  | [] => none
  | l :: ls => if containsSub lab l then firstNat l else firstZone lab ls

/-- `a` if present, else `b` (first-hit-wins combination). -/
def optOr (a b : Option Nat) : Option Nat :=
  match a with
  | some x => some x
  | none => b

/-- A line on which a given label never occurs anywhere in the file. -/
def neverMatches (lab : List Char) (raw : List (List Char)) : Prop :=
  ∀ l ∈ raw, containsSub lab l = false

/-- Properties every finalized block stored in `self.blocks` enjoys. -/
def BlockGood (n_cores : ℚ) (b : FLASHLogBlock) : Prop :=
  1 ≤ b.wall_time.length ∧
  b.n_steps = (b.wall_time.length : Int) - 1 ∧
  (stepsPerTimeSecs b.wall_time).length = b.wall_time.length - 1 ∧
  b.avg_wall_time_diff = qmean (stepsPerTimeSecs b.wall_time) ∧
  b.core_hours = (b.end_date - b.start_date) * n_cores

/-- Properties every finalized event stored in `self.fileIOs` enjoys. -/
def IOGood (n_cells_per_block : ℚ) (f : FileIOEvent) : Prop :=
  f.close_flag = true ∧ f.open_flag = false ∧
  f.wall_time = .secsVal (secsOf f.wall_time) ∧
  f.core_hours = secsOf f.wall_time / seconds_per_hour ∧
  f.wall_time_norm = secsOf f.wall_time / n_cells_per_block

/-- The loop invariant of `deconstruct_log_file`: `cnt` is the 1-based number
of the next line to be read; an open block covers exactly the step lines
`start_line .. cnt - 1`, one accumulated timestamp per line; an idle block
tracker has empty working lists; an awaiting-close event is present and not
yet closed; and every stored record satisfies its `Good` predicate. -/
structure LoopInv (blocks_flag : Bool) (n_cores n_cells_per_block : ℚ)
    (st : DState) (cnt : Nat) : Prop where
  chunkOff : blocks_flag = false → st.chunk = false
  inBlock : st.chunk = true → ∃ b, st.block = some b ∧
      b.start_line + st.wall_time_list.length = cnt ∧ 1 ≤ st.wall_time_list.length
  idleBlock : st.chunk = false → st.wall_time_list = []
  writeInv : st.write = true → ∃ f, st.fio = some f ∧ f.close_flag = false
  blocksGood : ∀ p ∈ st.blocks, BlockGood n_cores p.2
  iosGood : ∀ p ∈ st.fileIOs, IOGood n_cells_per_block p.2

/-- A step line carrying timestamp `t` and time-step size `dt`. -/
def stepL (t dt : ℚ) : LogLine :=
  { step := some (t, dt), isChk := false, isPlt := false, marker := .mnone, iot := 0 }

/-- A line matching no extractor (an ordinary log line). -/
def otherL : LogLine :=
  { step := none, isChk := false, isPlt := false, marker := .mnone, iot := 0 }

/-- An `IO_writeCheckpoint ... open:` line stamped `t`. -/
def chkOpenL (t : ℚ) : LogLine :=
  { step := none, isChk := true, isPlt := false, marker := .mopen, iot := t }

/-- An `IO_writeCheckpoint ... close:` line stamped `t`. -/
def chkCloseL (t : ℚ) : LogLine :=
  { step := none, isChk := true, isPlt := false, marker := .mclose, iot := t }

/-- The four parameter lines of the concrete scenario of the specification. -/
def demoRaw : List (List Char) :=
  ["Number of MPI tasks: 96".toList, "Number x zones: 16".toList,
   "Number y zones: 16".toList, "Number z zones: 16".toList]

/-- The scan state produced by the concrete scenario. -/
def demoScan : ScanState := okScan (scanAll ScanState.init demoRaw)

/-- A file whose final line is still a step line: the block tracker is
`in_block` at end-of-file. -/
def C1lines : List LogLine := [stepL 0 (1 / 100), stepL (3 / 2) (1 / 100)]

/-- Three contiguous step lines terminated by a non-step line. -/
def C2lines : List LogLine :=
  [stepL 0 (1 / 100), stepL (3 / 2) (1 / 100), stepL 3 (1 / 100), otherL]

/-- The loop state after processing `C2lines` with block tracking on. -/
def C2st : DState := okSt (deconstruct_log_file false true 96 4096 C2lines)

/-- The single finalized block of `C2lines`. -/
def C2blk : FLASHLogBlock := (C2st.blocks.headD (0, FLASHLogBlock.init 0 0 0)).2

/-- A state whose file-I/O tracker is awaiting a close of an event opened at
time 5. -/
def C3st : DState := { DState.init with write := true, fio := some (openedEvent 0 5) }

/-- A re-entrant open marker line stamped 7. -/
def C3line : LogLine := chkOpenL 7

/-- One complete I/O event followed by one complete block. -/
def C4lines : List LogLine :=
  [chkOpenL 0, chkCloseL 10, stepL 20 (1 / 100), stepL 21 (1 / 100), otherL]

/-- The loop state after processing `C4lines` with both trackers on. -/
def C4st : DState := okSt (deconstruct_log_file true true 96 4096 C4lines)

/-- The single finalized block of `C4lines`. -/
def C4blk : FLASHLogBlock := (C4st.blocks.headD (0, FLASHLogBlock.init 0 0 0)).2

/-- The single finalized I/O event of `C4lines`. -/
def C4ev : FileIOEvent := (C4st.fileIOs.headD (0, FileIOEvent.init 0)).2

/-- A run of step lines interrupted by exactly one non-step line, resuming
immediately and running to end-of-file. -/
def C5lines : List LogLine := [stepL 0 (1 / 100), otherL, stepL 3 (1 / 100)]

/-- A parameter scan input in which the core-count line never occurs. -/
def C6raw : List (List Char) :=
  ["Number x zones: 16".toList, "Number y zones: 16".toList,
   "Number z zones: 16".toList]

/-- A log whose first checkpoint marker line is an orphan `close:`. -/
def C9lines : List LogLine := [chkCloseL 5]

/-- Two further lines fed to the loop after `C4lines`: they extend the run
without touching what is already stored. -/
def C10more : List LogLine := [stepL 30 (1 / 100), otherL]

/-- The loop state after continuing from `C4st` with `C10more`. -/
def C10end : DState := okSt (runFrom true true 96 4096 C4st 6 C10more)

theorem stepsPerTimeSecs_length : ∀ l : List ℚ, (stepsPerTimeSecs l).length = l.length - 1
  | [] => rfl
  | [_] => rfl
  | a :: b :: rest => by
      have ih := stepsPerTimeSecs_length (b :: rest)
      simp only [stepsPerTimeSecs, List.length_cons] at *
      omega

theorem take_append_self {α : Type} (a b : List α) : (a ++ b).take a.length = a := by
  induction a with
  | nil => rfl
  | cons x xs ih => simp [List.take, ih]

theorem optOr_none (a : Option Nat) : optOr a none = a := by
  cases a <;> rfl

theorem open_file_close_flag (f : FileIOEvent) : f.open_file.close_flag = false := by
  simp only [FileIOEvent.open_file]
  split <;> simp_all

theorem open_file_open_flag (f : FileIOEvent) : f.open_file.open_flag = true := by
  simp only [FileIOEvent.open_file]
  split <;> simp_all

theorem close_file_close_flag (f : FileIOEvent) : f.close_file.close_flag = true := by
  simp only [FileIOEvent.close_file]
  split <;> simp_all

theorem close_file_open_flag (f : FileIOEvent) : f.close_file.open_flag = false := by
  simp only [FileIOEvent.close_file]
  split <;> simp_all

theorem close_file_wall_time (f : FileIOEvent) : f.close_file.wall_time = f.wall_time := by
  simp only [FileIOEvent.close_file]
  split <;> simp_all

theorem sfws_mopen (l : LogLine) (f0 : FileIOEvent)
    (hm : l.marker = .mopen) (ho : f0.open_flag = true) :
    search_file_write_stats l f0 = .ok (openedEvent f0.write_id l.iot) := by
  unfold search_file_write_stats
  rw [hm]
  simp only [ho, if_true, FileIOEvent.empty, FileIOEvent.open_file, FileIOEvent.init,
    openedEvent]
  rfl

theorem sfws_spec (l : LogLine) (f0 f : FileIOEvent)
    (hc : f0.close_flag = false)
    (h : search_file_write_stats l f0 = .ok f) :
    f.close_flag = false ∨
    (f.close_flag = true ∧ f.open_flag = false ∧
     ∃ s : ℚ, f.wall_time = .secsVal s ∧ f.core_hours = s / seconds_per_hour) := by
  unfold search_file_write_stats at h
  cases hm : l.marker <;> rw [hm] at h
  · left
    cases h
    exact open_file_close_flag _
  · simp only at h
    split at h
    · cases h
      right
      refine ⟨close_file_close_flag f0, close_file_open_flag f0, l.iot - _, rfl, rfl⟩
    · cases h
  · left
    cases h
    exact hc

theorem sfws_init_close (l : LogLine) (i : Nat) (f : FileIOEvent)
    (h : search_file_write_stats l (FileIOEvent.init i) = .ok f) :
    f.close_flag = false := by
  unfold search_file_write_stats at h
  cases hm : l.marker <;> rw [hm] at h
  · cases h
    exact open_file_close_flag _
  · simp only at h
    split at h
    · rename_i t0 hw
      rw [close_file_wall_time] at hw
      simp [FileIOEvent.init] at hw
    · cases h
  · cases h
    rfl

theorem stepFileWrites_spec (fw : Bool) (ncpb : ℚ) (st : DState) (l : LogLine) (st1 : DState)
    (h : stepFileWrites fw ncpb st l = .ok st1) :
    st1.chunk = st.chunk ∧ st1.wall_time_list = st.wall_time_list ∧
    st1.dt_list = st.dt_list ∧ st1.block = st.block ∧
    st1.blocks = st.blocks ∧ st1.block_id_counter = st.block_id_counter ∧
    (∃ tf, st1.fileIOs = st.fileIOs ++ tf) ∧
    ((st.write = true → ∃ f, st.fio = some f ∧ f.close_flag = false) →
     (∀ p ∈ st.fileIOs, IOGood ncpb p.2) →
     ((st1.write = true → ∃ f, st1.fio = some f ∧ f.close_flag = false) ∧
      (∀ p ∈ st1.fileIOs, IOGood ncpb p.2))) := by
  cases fw with
  | false =>
      simp only [stepFileWrites, Bool.false_eq_true, if_false] at h
      cases h
      exact ⟨rfl, rfl, rfl, rfl, rfl, rfl, ⟨[], by simp⟩, fun hw hg => ⟨hw, hg⟩⟩
  | true =>
      cases hcp : (l.isChk || l.isPlt) with
      | false =>
          simp only [stepFileWrites, hcp, Bool.false_eq_true, if_true, if_false] at h
          cases h
          exact ⟨rfl, rfl, rfl, rfl, rfl, rfl, ⟨[], by simp⟩, fun hw hg => ⟨hw, hg⟩⟩
      | true =>
          cases hwr : st.write with
          | false =>
              cases hsf : search_file_write_stats l (FileIOEvent.init st.IO_id_counter) with
              | error e =>
                  simp only [stepFileWrites, hcp, hwr, Bool.false_eq_true, if_true, if_false,
                    hsf] at h
                  exact (Except.noConfusion h)
              | ok f =>
                  simp only [stepFileWrites, hcp, hwr, Bool.false_eq_true, if_true, if_false,
                    hsf] at h
                  cases h
                  refine ⟨rfl, rfl, rfl, rfl, rfl, rfl, ⟨[], by simp⟩, fun hw hg => ?_⟩
                  exact ⟨fun _ => ⟨f, rfl, sfws_init_close l st.IO_id_counter f hsf⟩, hg⟩
          | true =>
              cases hfio : st.fio with
              | none =>
                  simp only [stepFileWrites, hcp, hwr, hfio, if_true] at h
                  cases h
                  refine ⟨rfl, rfl, rfl, rfl, rfl, rfl, ⟨[], by simp⟩, fun hw hg => ?_⟩
                  exact absurd (hw rfl) (by simp)
              | some f0 =>
                  cases hsf : search_file_write_stats l f0 with
                  | error e =>
                      simp only [stepFileWrites, hcp, hwr, hfio, hsf, if_true] at h
                      exact (Except.noConfusion h)
                  | ok f =>
                      cases hcl : f.close_flag with
                      | false =>
                          simp only [stepFileWrites, hcp, hwr, hfio, hsf, hcl,
                            Bool.false_eq_true, if_true, if_false] at h
                          cases h
                          refine ⟨rfl, rfl, rfl, rfl, rfl, rfl, ⟨[], by simp⟩,
                            fun hw hg => ?_⟩
                          exact ⟨fun _ => ⟨f, rfl, hcl⟩, hg⟩
                      | true =>
                          cases hwt : f.wall_time with
                          | intVal n =>
                              simp only [stepFileWrites, hcp, hwr, hfio, hsf, hcl, hwt,
                                if_true] at h
                              cases h
                              refine ⟨rfl, rfl, rfl, rfl, rfl, rfl, ⟨_, rfl⟩,
                                fun hw hg => ?_⟩
                              rcases hw rfl with ⟨f0x, hf0x, hc0⟩
                              cases hf0x
                              rcases sfws_spec l f0 f hc0 hsf with hcf | ⟨-, -, s', hwt', -⟩
                              · rw [hcf] at hcl
                                cases hcl
                              · rw [hwt] at hwt'
                                cases hwt'
                          | dtVal t =>
                              simp only [stepFileWrites, hcp, hwr, hfio, hsf, hcl, hwt,
                                if_true] at h
                              exact (Except.noConfusion h)
                          | secsVal s =>
                              simp only [stepFileWrites, hcp, hwr, hfio, hsf, hcl, hwt,
                                if_true] at h
                              cases h
                              refine ⟨rfl, rfl, rfl, rfl, rfl, rfl, ⟨_, rfl⟩,
                                fun hw hg => ?_⟩
                              constructor
                              · intro hw1
                                simp at hw1
                              · intro p hp
                                rcases List.mem_append.mp hp with hp | hp
                                · exact hg p hp
                                · rcases hw rfl with ⟨f0x, hf0x, hc0⟩
                                  cases hf0x
                                  rcases sfws_spec l f0 f hc0 hsf with
                                    hcf | ⟨-, hopen, s', hwt', hch⟩
                                  · rw [hcf] at hcl
                                    cases hcl
                                  · rw [hwt] at hwt'
                                    cases hwt'
                                    simp only [List.mem_singleton] at hp
                                    cases hp
                                    simp only [IOGood]
                                    refine ⟨?_, ?_, ?_, ?_, ?_⟩ <;>
                                      simp [hwt, hcl, hopen, hch, secsOf]

theorem stepBlocks_frame (bf : Bool) (nc ncpb : ℚ) (st : DState) (cnt : Nat) (l : LogLine)
    (st1 : DState) (hsb : stepBlocks bf nc ncpb st cnt l = st1) :
    st1.write = st.write ∧ st1.fio = st.fio ∧ st1.fileIOs = st.fileIOs ∧
    st1.IO_id_counter = st.IO_id_counter ∧
    (∃ tb, st1.blocks = st.blocks ++ tb) := by
  cases bf with
  | false =>
      simp only [stepBlocks, Bool.false_eq_true, if_false] at hsb
      cases hsb
      exact ⟨rfl, rfl, rfl, rfl, ⟨[], by simp⟩⟩
  | true =>
      cases hs : search_walltime l with
      | some wd =>
          cases hch : st.chunk <;>
            simp only [stepBlocks, hs, hch, Bool.false_eq_true, if_true, if_false] at hsb <;>
            cases hsb <;>
            exact ⟨rfl, rfl, rfl, rfl, ⟨[], by simp⟩⟩
      | none =>
          cases hch : st.chunk with
          | false =>
              simp only [stepBlocks, hs, hch, Bool.false_eq_true, if_true, if_false] at hsb
              cases hsb
              exact ⟨rfl, rfl, rfl, rfl, ⟨[], by simp⟩⟩
          | true =>
              cases hb : st.block with
              | none =>
                  simp only [stepBlocks, hs, hch, hb, if_true] at hsb
                  cases hsb
                  exact ⟨rfl, rfl, rfl, rfl, ⟨[], by simp⟩⟩
              | some b =>
                  simp only [stepBlocks, hs, hch, hb, if_true] at hsb
                  cases hsb
                  exact ⟨rfl, rfl, rfl, rfl, ⟨_, rfl⟩⟩

theorem stepBlocks_inv (bf : Bool) (nc ncpb : ℚ) (st : DState) (cnt : Nat) (l : LogLine)
    (st1 : DState) (hsb : stepBlocks bf nc ncpb st cnt l = st1)
    (hoff : bf = false → st.chunk = false)
    (h1 : st.chunk = true → ∃ b, st.block = some b ∧
      b.start_line + st.wall_time_list.length = cnt ∧ 1 ≤ st.wall_time_list.length)
    (h2 : st.chunk = false → st.wall_time_list = [])
    (h3 : ∀ p ∈ st.blocks, BlockGood nc p.2) :
    (bf = false → st1.chunk = false) ∧
    (st1.chunk = true → ∃ b, st1.block = some b ∧
      b.start_line + st1.wall_time_list.length = cnt + 1 ∧
      1 ≤ st1.wall_time_list.length) ∧
    (st1.chunk = false → st1.wall_time_list = []) ∧
    (∀ p ∈ st1.blocks, BlockGood nc p.2) := by
  cases bf with
  | false =>
      simp only [stepBlocks, Bool.false_eq_true, if_false] at hsb
      cases hsb
      refine ⟨fun _ => hoff rfl, fun hc => ?_, h2, h3⟩
      rw [hoff rfl] at hc
      cases hc
  | true =>
      cases hs : search_walltime l with
      | some wd =>
          cases hch : st.chunk with
          | true =>
              simp only [stepBlocks, hs, hch, if_true] at hsb
              cases hsb
              rcases h1 hch with ⟨b, hb, hlen, hpos⟩
              refine ⟨fun hbf => (Bool.noConfusion hbf), fun _ => ⟨b, hb, ?_, ?_⟩,
                fun hc => (Bool.noConfusion hc), h3⟩
              · simp only [List.length_append, List.length_cons, List.length_nil]
                omega
              · simp only [List.length_append, List.length_cons, List.length_nil]
                omega
          | false =>
              simp only [stepBlocks, hch, hs, Bool.false_eq_true, if_true, if_false] at hsb
              cases hsb
              refine ⟨fun hbf => (Bool.noConfusion hbf), fun _ => ?_,
                fun hc => (Bool.noConfusion hc), h3⟩
              refine ⟨FLASHLogBlock.init st.block_id_counter wd.1 cnt, rfl, ?_, ?_⟩
              · rw [h2 hch]
                simp [FLASHLogBlock.init]
              · rw [h2 hch]
                simp
      | none =>
          cases hch : st.chunk with
          | false =>
              simp only [stepBlocks, hs, hch, Bool.false_eq_true, if_true, if_false] at hsb
              cases hsb
              exact ⟨fun _ => hch, fun hc => absurd hch (by simp [hc]), h2, h3⟩
          | true =>
              cases hb : st.block with
              | none =>
                  rcases h1 hch with ⟨b, hbb, -, -⟩
                  rw [hb] at hbb
                  cases hbb
              | some b =>
                  simp only [stepBlocks, hs, hch, hb, if_true] at hsb
                  cases hsb
                  rcases h1 hch with ⟨b', hbb, hlen, hpos⟩
                  rw [hb] at hbb
                  cases hbb
                  refine ⟨fun _ => rfl, fun hc => (Bool.noConfusion hc), fun _ => rfl, ?_⟩
                  intro p hp
                  rcases List.mem_append.mp hp with hp | hp
                  · exact h3 p hp
                  · simp only [List.mem_singleton] at hp
                    cases hp
                    simp only [BlockGood, process_block_statistics]
                    refine ⟨hpos, ?_, ?_, ?_, ?_⟩ <;>
                      first
                        | exact stepsPerTimeSecs_length _
                        | trivial
                        | omega

theorem stepLine_inv (fw bf : Bool) (nc ncpb : ℚ) (st : DState) (cnt : Nat) (l : LogLine)
    (st1 : DState) (h : stepLine fw bf nc ncpb st cnt l = .ok st1)
    (hi : LoopInv bf nc ncpb st cnt) : LoopInv bf nc ncpb st1 (cnt + 1) := by
  unfold stepLine at h
  cases hio : stepFileWrites fw ncpb st l with
  | error e =>
      rw [hio] at h
      exact (Except.noConfusion h)
  | ok st2 =>
      rw [hio] at h
      cases h
      obtain ⟨hc, hw, hd, hb, hbl, hbid, ⟨tf, hios⟩, himpl⟩ :=
        stepFileWrites_spec fw ncpb st l st2 hio
      obtain ⟨hiw, hig⟩ := himpl hi.writeInv hi.iosGood
      have hoff2 : bf = false → st2.chunk = false := by
        intro hbf
        rw [hc]
        exact hi.chunkOff hbf
      have h1x : st2.chunk = true → ∃ b, st2.block = some b ∧
          b.start_line + st2.wall_time_list.length = cnt ∧
          1 ≤ st2.wall_time_list.length := by
        intro hc2
        rw [hc] at hc2
        rcases hi.inBlock hc2 with ⟨b, hbb, hlen, hpos⟩
        rw [hw]
        exact ⟨b, by rw [hb]; exact hbb, hlen, hpos⟩
      have h2x : st2.chunk = false → st2.wall_time_list = [] := by
        intro hc2
        rw [hc] at hc2
        rw [hw]
        exact hi.idleBlock hc2
      have h3x : ∀ p ∈ st2.blocks, BlockGood nc p.2 := by
        rw [hbl]
        exact hi.blocksGood
      obtain ⟨goff, g1, g2, g3⟩ :=
        stepBlocks_inv bf nc ncpb st2 cnt l _ rfl hoff2 h1x h2x h3x
      obtain ⟨fw1, ffio, ffios, fid, ⟨tb, fbl⟩⟩ :=
        stepBlocks_frame bf nc ncpb st2 cnt l _ rfl
      refine ⟨goff, g1, g2, ?_, g3, ?_⟩
      · intro hwt
        rw [fw1] at hwt
        rcases hiw hwt with ⟨f, hf, hcf⟩
        exact ⟨f, by rw [ffio]; exact hf, hcf⟩
      · rw [ffios]
        exact hig

theorem loopInv_init (bf : Bool) (nc ncpb : ℚ) : LoopInv bf nc ncpb DState.init 1 := by
  refine ⟨fun _ => rfl, fun h => ?_, fun _ => rfl, fun h => ?_, fun p hp => ?_, fun p hp => ?_⟩
  · cases h
  · cases h
  · cases hp
  · cases hp

theorem runFrom_inv (fw bf : Bool) (nc ncpb : ℚ) :
    ∀ (ls : List LogLine) (st : DState) (cnt : Nat) (st1 : DState),
      LoopInv bf nc ncpb st cnt → runFrom fw bf nc ncpb st cnt ls = .ok st1 →
      ∃ cnt1, LoopInv bf nc ncpb st1 cnt1
  | [], st, cnt, st1, hi, h => by
      unfold runFrom at h
      cases h
      exact ⟨cnt, hi⟩
  | l :: ls, st, cnt, st1, hi, h => by
      unfold runFrom at h
      cases hs : stepLine fw bf nc ncpb st cnt l with
      | error e =>
          rw [hs] at h
          exact (Except.noConfusion h)
      | ok st2 =>
          rw [hs] at h
          exact runFrom_inv fw bf nc ncpb ls st2 (cnt + 1) st1
            (stepLine_inv fw bf nc ncpb st cnt l st2 hs hi) h

theorem deconstruct_inv (fw bf : Bool) (nc ncpb : ℚ) (ls : List LogLine) (st1 : DState)
    (h : deconstruct_log_file fw bf nc ncpb ls = .ok st1) :
    ∃ cnt1, LoopInv bf nc ncpb st1 cnt1 :=
  runFrom_inv fw bf nc ncpb ls DState.init 1 st1 (loopInv_init bf nc ncpb) h

theorem stepLine_extends (fw bf : Bool) (nc ncpb : ℚ) (st : DState) (cnt : Nat)
    (l : LogLine) (st1 : DState) (h : stepLine fw bf nc ncpb st cnt l = .ok st1) :
    (∃ tb, st1.blocks = st.blocks ++ tb) ∧ (∃ tf, st1.fileIOs = st.fileIOs ++ tf) := by
  unfold stepLine at h
  cases hio : stepFileWrites fw ncpb st l with
  | error e =>
      rw [hio] at h
      exact (Except.noConfusion h)
  | ok st2 =>
      rw [hio] at h
      cases h
      obtain ⟨-, -, -, -, hbl, -, ⟨tf, hios⟩, -⟩ := stepFileWrites_spec fw ncpb st l st2 hio
      obtain ⟨-, -, ffios, -, ⟨tb, fbl⟩⟩ := stepBlocks_frame bf nc ncpb st2 cnt l _ rfl
      constructor
      · exact ⟨tb, by rw [fbl, hbl]⟩
      · exact ⟨tf, by rw [ffios, hios]⟩

theorem runFrom_extends (fw bf : Bool) (nc ncpb : ℚ) :
    ∀ (ls : List LogLine) (st : DState) (cnt : Nat) (st1 : DState),
      runFrom fw bf nc ncpb st cnt ls = .ok st1 →
      (∃ tb, st1.blocks = st.blocks ++ tb) ∧ (∃ tf, st1.fileIOs = st.fileIOs ++ tf)
  | [], st, cnt, st1, h => by
      unfold runFrom at h
      cases h
      exact ⟨⟨[], by simp⟩, ⟨[], by simp⟩⟩
  | l :: ls, st, cnt, st1, h => by
      unfold runFrom at h
      cases hs : stepLine fw bf nc ncpb st cnt l with
      | error e =>
          rw [hs] at h
          exact (Except.noConfusion h)
      | ok st2 =>
          rw [hs] at h
          obtain ⟨⟨tb1, hb1⟩, ⟨tf1, hf1⟩⟩ := stepLine_extends fw bf nc ncpb st cnt l st2 hs
          obtain ⟨⟨tb2, hb2⟩, ⟨tf2, hf2⟩⟩ := runFrom_extends fw bf nc ncpb ls st2 (cnt + 1) st1 h
          constructor
          · exact ⟨tb1 ++ tb2, by rw [hb2, hb1, List.append_assoc]⟩
          · exact ⟨tf1 ++ tf2, by rw [hf2, hf1, List.append_assoc]⟩

theorem upd_core_spec (st : ScanState) (l : List Char) (st1 : ScanState)
    (h : upd_core st l = .ok st1) :
    st1.nxb = st.nxb ∧ st1.nyb = st.nyb ∧ st1.nzb = st.nzb ∧
    st1.n_cores = optOr st.n_cores
      (if containsSub coreLabel l = true then firstNat l else none) ∧
    (st.n_cores = none → containsSub coreLabel l = true → firstNat l ≠ none) := by
  unfold upd_core search_core_count at h
  cases hnc : st.n_cores with
  | some c =>
      simp only [hnc, Option.isNone_some, Bool.false_eq_true, if_false] at h
      cases h
      refine ⟨rfl, rfl, rfl, by simp [optOr, hnc], ?_⟩
      intro hA hB
      simp_all
  | none =>
      simp only [hnc, Option.isNone_none, if_true] at h
      cases hcs : containsSub coreLabel l with
      | false =>
          simp only [hcs, Bool.false_eq_true, if_false] at h
          cases h
          refine ⟨rfl, rfl, rfl, by simp [optOr, hnc], ?_⟩
          intro hA hB
          simp_all
      | true =>
          simp only [hcs, if_true] at h
          cases hfn : firstNat l with
          | none =>
              rw [hfn] at h
              exact (Except.noConfusion h)
          | some n =>
              rw [hfn] at h
              cases h
              refine ⟨rfl, rfl, rfl, by simp [optOr, hnc, hcs, hfn], ?_⟩
              intro hA hB
              simp_all

theorem upd_nxb_spec (st : ScanState) (l : List Char) (st1 : ScanState)
    (h : upd_nxb st l = .ok st1) :
    st1.n_cores = st.n_cores ∧ st1.nyb = st.nyb ∧ st1.nzb = st.nzb ∧
    st1.nxb = optOr st.nxb
      (if containsSub xLabel l = true then firstNat l else none) ∧
    (st.nxb = none → containsSub xLabel l = true → firstNat l ≠ none) := by
  unfold upd_nxb search_block_cell_count at h
  cases hnx : st.nxb with
  | some c =>
      simp only [hnx, Option.isNone_some, Bool.false_eq_true, if_false] at h
      cases h
      refine ⟨rfl, rfl, rfl, by simp [optOr, hnx], ?_⟩
      intro hA hB
      simp_all
  | none =>
      simp only [hnx, Option.isNone_none, if_true] at h
      cases hcs : containsSub xLabel l with
      | false =>
          simp only [hcs, Bool.false_eq_true, if_false] at h
          cases h
          refine ⟨rfl, rfl, rfl, by simp [optOr, hnx], ?_⟩
          intro hA hB
          simp_all
      | true =>
          simp only [hcs, if_true] at h
          cases hfn : firstNat l with
          | none =>
              rw [hfn] at h
              exact (Except.noConfusion h)
          | some n =>
              rw [hfn] at h
              cases h
              refine ⟨rfl, rfl, rfl, by simp [optOr, hnx, hcs, hfn], ?_⟩
              intro hA hB
              simp_all

theorem upd_nyb_spec (st : ScanState) (l : List Char) (st1 : ScanState)
    (h : upd_nyb st l = .ok st1) :
    st1.n_cores = st.n_cores ∧ st1.nxb = st.nxb ∧ st1.nzb = st.nzb ∧
    st1.nyb = optOr st.nyb
      (if containsSub yLabel l = true then firstNat l else none) ∧
    (st.nyb = none → containsSub yLabel l = true → firstNat l ≠ none) := by
  unfold upd_nyb search_block_cell_count at h
  cases hny : st.nyb with
  | some c =>
      simp only [hny, Option.isNone_some, Bool.false_eq_true, if_false] at h
      cases h
      refine ⟨rfl, rfl, rfl, by simp [optOr, hny], ?_⟩
      intro hA hB
      simp_all
  | none =>
      simp only [hny, Option.isNone_none, if_true] at h
      cases hcs : containsSub yLabel l with
      | false =>
          simp only [hcs, Bool.false_eq_true, if_false] at h
          cases h
          refine ⟨rfl, rfl, rfl, by simp [optOr, hny], ?_⟩
          intro hA hB
          simp_all
      | true =>
          simp only [hcs, if_true] at h
          cases hfn : firstNat l with
          | none =>
              rw [hfn] at h
              exact (Except.noConfusion h)
          | some n =>
              rw [hfn] at h
              cases h
              refine ⟨rfl, rfl, rfl, by simp [optOr, hny, hcs, hfn], ?_⟩
              intro hA hB
              simp_all

theorem upd_nzb_spec (st : ScanState) (l : List Char) (st1 : ScanState)
    (h : upd_nzb st l = .ok st1) :
    st1.n_cores = st.n_cores ∧ st1.nxb = st.nxb ∧ st1.nyb = st.nyb ∧
    st1.nzb = optOr st.nzb
      (if containsSub zLabel l = true then firstNat l else none) ∧
    (st.nzb = none → containsSub zLabel l = true → firstNat l ≠ none) := by
  unfold upd_nzb search_block_cell_count at h
  cases hnz : st.nzb with
  | some c =>
      simp only [hnz, Option.isNone_some, Bool.false_eq_true, if_false] at h
      cases h
      refine ⟨rfl, rfl, rfl, by simp [optOr, hnz], ?_⟩
      intro hA hB
      simp_all
  | none =>
      simp only [hnz, Option.isNone_none, if_true] at h
      cases hcs : containsSub zLabel l with
      | false =>
          simp only [hcs, Bool.false_eq_true, if_false] at h
          cases h
          refine ⟨rfl, rfl, rfl, by simp [optOr, hnz], ?_⟩
          intro hA hB
          simp_all
      | true =>
          simp only [hcs, if_true] at h
          cases hfn : firstNat l with
          | none =>
              rw [hfn] at h
              exact (Except.noConfusion h)
          | some n =>
              rw [hfn] at h
              cases h
              refine ⟨rfl, rfl, rfl, by simp [optOr, hnz, hcs, hfn], ?_⟩
              intro hA hB
              simp_all

theorem scanStep_spec (st : ScanState) (l : List Char) (st1 : ScanState)
    (h : scanStep st l = .ok st1) :
    (st1.n_cores = optOr st.n_cores
      (if containsSub coreLabel l = true then firstNat l else none) ∧
     (st.n_cores = none → containsSub coreLabel l = true → firstNat l ≠ none)) ∧
    (st1.nxb = optOr st.nxb (if containsSub xLabel l = true then firstNat l else none) ∧
     (st.nxb = none → containsSub xLabel l = true → firstNat l ≠ none)) ∧
    (st1.nyb = optOr st.nyb (if containsSub yLabel l = true then firstNat l else none) ∧
     (st.nyb = none → containsSub yLabel l = true → firstNat l ≠ none)) ∧
    (st1.nzb = optOr st.nzb (if containsSub zLabel l = true then firstNat l else none) ∧
     (st.nzb = none → containsSub zLabel l = true → firstNat l ≠ none)) := by
  unfold scanStep at h
  cases h1 : upd_core st l with
  | error e =>
      rw [h1] at h
      exact (Except.noConfusion h)
  | ok s1 =>
      simp only [h1] at h
      cases h2 : upd_nxb s1 l with
      | error e =>
          simp only [h2] at h
          exact (Except.noConfusion h)
      | ok s2 =>
          simp only [h2] at h
          cases h3 : upd_nyb s2 l with
          | error e =>
              simp only [h3] at h
              exact (Except.noConfusion h)
          | ok s3 =>
              simp only [h3] at h
              obtain ⟨a1, a2, a3, a4, a5⟩ := upd_core_spec st l s1 h1
              obtain ⟨b1, b2, b3, b4, b5⟩ := upd_nxb_spec s1 l s2 h2
              obtain ⟨c1, c2, c3, c4, c5⟩ := upd_nyb_spec s2 l s3 h3
              obtain ⟨d1, d2, d3, d4, d5⟩ := upd_nzb_spec s3 l st1 h
              refine ⟨⟨?_, a5⟩, ⟨?_, ?_⟩, ⟨?_, ?_⟩, ⟨?_, ?_⟩⟩
              · rw [d1, c1, b1, a4]
              · rw [d2, c2, b4, a1]
              · intro hx
                rw [← a1] at hx
                exact b5 hx
              · rw [d3, c4, b2, a2]
              · intro hy
                rw [← a2] at hy
                rw [← b2] at hy
                exact c5 hy
              · rw [d4, c3, b3, a3]
              · intro hz
                rw [← a3] at hz
                rw [← b3] at hz
                rw [← c3] at hz
                exact d5 hz

theorem scanAll_spec :
    ∀ (raw : List (List Char)) (st : ScanState) (st1 : ScanState),
      scanAll st raw = .ok st1 →
      st1.n_cores = optOr st.n_cores (firstCore raw) ∧
      st1.nxb = optOr st.nxb (firstZone xLabel raw) ∧
      st1.nyb = optOr st.nyb (firstZone yLabel raw) ∧
      st1.nzb = optOr st.nzb (firstZone zLabel raw)
  | [], st, st1, h => by
      unfold scanAll at h
      cases h
      simp [firstCore, firstZone, optOr_none]
  | l :: ls, st, st1, h => by
      unfold scanAll at h
      cases hs : scanStep st l with
      | error e =>
          rw [hs] at h
          exact (Except.noConfusion h)
      | ok s1 =>
          simp only [hs] at h
          obtain ⟨⟨a1, a5⟩, ⟨b1, b5⟩, ⟨c1, c5⟩, ⟨d1, d5⟩⟩ := scanStep_spec st l s1 hs
          obtain ⟨ih1, ih2, ih3, ih4⟩ := scanAll_spec ls s1 st1 h
          refine ⟨?_, ?_, ?_, ?_⟩
          · rw [ih1, a1]
            cases hnc : st.n_cores with
            | some c => rfl
            | none =>
                cases hcs : containsSub coreLabel l with
                | false => simp [firstCore, hcs, optOr]
                | true =>
                    cases hfn : firstNat l with
                    | none => exact absurd hfn (a5 hnc hcs)
                    | some n => simp [firstCore, hcs, hfn, optOr]
          · rw [ih2, b1]
            cases hnc : st.nxb with
            | some c => rfl
            | none =>
                cases hcs : containsSub xLabel l with
                | false => simp [firstZone, hcs, optOr]
                | true =>
                    cases hfn : firstNat l with
                    | none => exact absurd hfn (b5 hnc hcs)
                    | some n => simp [firstZone, hcs, hfn, optOr]
          · rw [ih3, c1]
            cases hnc : st.nyb with
            | some c => rfl
            | none =>
                cases hcs : containsSub yLabel l with
                | false => simp [firstZone, hcs, optOr]
                | true =>
                    cases hfn : firstNat l with
                    | none => exact absurd hfn (c5 hnc hcs)
                    | some n => simp [firstZone, hcs, hfn, optOr]
          · rw [ih4, d1]
            cases hnc : st.nzb with
            | some c => rfl
            | none =>
                cases hcs : containsSub zLabel l with
                | false => simp [firstZone, hcs, optOr]
                | true =>
                    cases hfn : firstNat l with
                    | none => exact absurd hfn (d5 hnc hcs)
                    | some n => simp [firstZone, hcs, hfn, optOr]

theorem firstZone_none (lab : List Char) :
    ∀ raw, neverMatches lab raw → firstZone lab raw = none
  | [], _ => rfl
  | l :: ls, h => by
      unfold firstZone
      rw [h l (by simp)]
      simp only [Bool.false_eq_true, if_false]
      exact firstZone_none lab ls (fun x hx => h x (by simp [hx]))

theorem firstCore_eq_firstZone : ∀ raw, firstCore raw = firstZone coreLabel raw
  | [] => rfl
  | l :: ls => by
      unfold firstCore firstZone
      rw [firstCore_eq_firstZone ls]

theorem compute_missing (raw : List (List Char))
    (h : neverMatches coreLabel raw ∨ neverMatches xLabel raw ∨
      neverMatches yLabel raw ∨ neverMatches zLabel raw) :
    isErr (compute_sim_parameters raw) = true := by
  unfold compute_sim_parameters
  cases hs : scanAll ScanState.init raw with
  | error e => rfl
  | ok st =>
      obtain ⟨e1, e2, e3, e4⟩ := scanAll_spec raw ScanState.init st hs
      have hnone : st.n_cores = none ∨ st.nxb = none ∨ st.nyb = none ∨ st.nzb = none := by
        rcases h with h | h | h | h
        · left
          rw [e1, firstCore_eq_firstZone raw, firstZone_none coreLabel raw h]
          rfl
        · right; left
          rw [e2, firstZone_none xLabel raw h]
          rfl
        · right; right; left
          rw [e3, firstZone_none yLabel raw h]
          rfl
        · right; right; right
          rw [e4, firstZone_none zLabel raw h]
          rfl
      clear e1 e2 e3 e4 hs h
      rcases hnone with hh | hh | hh | hh <;>
        cases hxv : st.nxb <;> cases hyv : st.nyb <;> cases hzv : st.nzb <;>
        cases hcv : st.n_cores <;>
        simp_all [isErr]

theorem process_file_err (fw bf : Bool) (raw : List (List Char)) (ls : List LogLine)
    (h : isErr (compute_sim_parameters raw) = true) :
    isErr (process_file fw bf raw ls) = true := by
  unfold process_file
  cases hc : compute_sim_parameters raw with
  | error e => rfl
  | ok p =>
      rw [hc] at h
      simp [isErr] at h

theorem applyOps_mutex : ∀ (ops : List FOp) (f : FileIOEvent),
    (f.open_flag && f.close_flag) = false →
    ((applyOps f ops).open_flag && (applyOps f ops).close_flag) = false
  | [], _, h => h
  | .opn :: ops, f, _ =>
      applyOps_mutex ops f.open_file (by rw [open_file_close_flag]; simp)
  | .cls :: ops, f, _ =>
      applyOps_mutex ops f.close_file (by rw [close_file_open_flag]; simp)

/-- Claim C1: the specification demands that a block still open at
end-of-file be finalized with the last line number as end line; the read
loop of `deconstruct_log_file` has no such flush, so the trailing block is
silently dropped.  On a two-line file consisting solely of step lines the
loop ends still `in_block` with two accumulated timestamps, yet the Result
Store holds no block at all. -/
theorem C1_trailing_block_dropped :
    (okSt (deconstruct_log_file false true 96 4096 C1lines)).blocks = [] ∧
    (okSt (deconstruct_log_file false true 96 4096 C1lines)).chunk = true ∧
    (okSt (deconstruct_log_file false true 96 4096 C1lines)).wall_time_list.length = 2 := by
  refine ⟨by decide, by decide, by decide⟩

/-- Claim C2: every block finalized into the Result Store from N contiguous
step lines (N = length of its timestamp list, one timestamp appended per
step line) satisfies `n_steps = N - 1`, and the list of consecutive
timestamp differences handed to the mean/std computation has exactly N - 1
elements (`avg_wall_time_diff` is the mean of precisely that list). -/
theorem C2_step_count (fw bf : Bool) (nc ncpb : ℚ) (ls : List LogLine) (st : DState)
    (k : Nat) (b : FLASHLogBlock)
    (h : deconstruct_log_file fw bf nc ncpb ls = .ok st)
    (hb : (k, b) ∈ st.blocks) (_hN : 2 ≤ b.wall_time.length) :
    b.n_steps = (b.wall_time.length : Int) - 1 ∧
    (stepsPerTimeSecs b.wall_time).length = b.wall_time.length - 1 ∧
    b.avg_wall_time_diff = qmean (stepsPerTimeSecs b.wall_time) := by
  obtain ⟨cnt1, hi⟩ := deconstruct_inv fw bf nc ncpb ls st h
  obtain ⟨h1, h2, h3, h4, h5⟩ := hi.blocksGood (k, b) hb
  exact ⟨h2, h3, h4⟩

theorem C2_step_count_witness :
    C2blk.n_steps = (C2blk.wall_time.length : Int) - 1 ∧
    (stepsPerTimeSecs C2blk.wall_time).length = C2blk.wall_time.length - 1 ∧
    C2blk.avg_wall_time_diff = qmean (stepsPerTimeSecs C2blk.wall_time) :=
  C2_step_count false true 96 4096 C2lines C2st 0 C2blk rfl (List.Mem.head _) (by decide)

/-- Claim C3: a second open marker on a checkpoint/plot line while the
tracker is still awaiting a close stores nothing (the incomplete event never
reaches `self.fileIOs`) and replaces the tracked event by a pristine one
opened at the new timestamp — last-open-wins.  Afterwards the loop state
holds no trace of the discarded event's accumulated fields, so it can never
be stored later either. -/
theorem C3_reopen_discards (bf : Bool) (nc ncpb : ℚ) (st : DState) (cnt : Nat)
    (l : LogLine) (f : FileIOEvent)
    (hw : st.write = true) (hf : st.fio = some f) (ho : f.open_flag = true)
    (hcp : (l.isChk || l.isPlt) = true) (hm : l.marker = .mopen) :
    isErr (stepLine true bf nc ncpb st cnt l) = false ∧
    (okSt (stepLine true bf nc ncpb st cnt l)).fileIOs = st.fileIOs ∧
    (okSt (stepLine true bf nc ncpb st cnt l)).write = true ∧
    (okSt (stepLine true bf nc ncpb st cnt l)).fio =
      some (openedEvent f.write_id l.iot) := by
  have hsf := sfws_mopen l f hm ho
  have hst1 : stepFileWrites true ncpb st l =
      .ok { st with fio := some (openedEvent f.write_id l.iot) } := by
    simp only [stepFileWrites, hcp, hw, hf, hsf, if_true]
    simp [openedEvent, FileIOEvent.init]
  have hrun : stepLine true bf nc ncpb st cnt l =
      .ok (stepBlocks bf nc ncpb
        { st with fio := some (openedEvent f.write_id l.iot) } cnt l) := by
    unfold stepLine
    rw [hst1]
  obtain ⟨w1, f1, fi1, -, -⟩ := stepBlocks_frame bf nc ncpb
    ({ st with fio := some (openedEvent f.write_id l.iot) }) cnt l _ rfl
  rw [hrun]
  exact ⟨rfl, fi1, by rw [okSt, w1]; exact hw, by rw [okSt, f1]⟩

theorem C3_reopen_discards_witness :
    isErr (stepLine true true 96 4096 C3st 1 C3line) = false ∧
    (okSt (stepLine true true 96 4096 C3st 1 C3line)).fileIOs = C3st.fileIOs ∧
    (okSt (stepLine true true 96 4096 C3st 1 C3line)).write = true ∧
    (okSt (stepLine true true 96 4096 C3st 1 C3line)).fio =
      some (openedEvent (openedEvent 0 5).write_id C3line.iot) :=
  C3_reopen_discards true 96 4096 C3st 1 C3line (openedEvent 0 5) rfl rfl rfl
    (by decide) rfl

/-- Claim C4: block core-hours as exported by `create_dataset`
(`core_hours.total_seconds() / seconds_per_hour`) equal the wall-clock
duration in hours multiplied by the core count, while a finalized I/O
event's `core_hours` is its duration in seconds divided by 3600 with no
core-count factor — the deliberate asymmetry. -/
theorem C4_core_hours_asymmetry (fw bf : Bool) (nc ncpb : ℚ) (ls : List LogLine)
    (st : DState) (k : Nat) (b : FLASHLogBlock) (k2 : Nat) (f : FileIOEvent)
    (h : deconstruct_log_file fw bf nc ncpb ls = .ok st)
    (hb : (k, b) ∈ st.blocks) (hf : (k2, f) ∈ st.fileIOs) :
    exported_core_hours b = ((b.end_date - b.start_date) / seconds_per_hour) * nc ∧
    f.wall_time = .secsVal (secsOf f.wall_time) ∧
    f.core_hours = secsOf f.wall_time / seconds_per_hour := by
  obtain ⟨cnt1, hi⟩ := deconstruct_inv fw bf nc ncpb ls st h
  obtain ⟨-, -, -, -, h5⟩ := hi.blocksGood (k, b) hb
  obtain ⟨-, -, i3, i4, -⟩ := hi.iosGood (k2, f) hf
  refine ⟨?_, i3, i4⟩
  rw [exported_core_hours, h5]
  ring

theorem C4_core_hours_asymmetry_witness :
    exported_core_hours C4blk =
      ((C4blk.end_date - C4blk.start_date) / seconds_per_hour) * 96 ∧
    C4ev.wall_time = .secsVal (secsOf C4ev.wall_time) ∧
    C4ev.core_hours = secsOf C4ev.wall_time / seconds_per_hour :=
  C4_core_hours_asymmetry true true 96 4096 C4lines C4st 0 C4blk 0 C4ev rfl
    (List.Mem.head _) (List.Mem.head _)

/-- Claim C5: the specification expects a run of step lines interrupted by
one non-step line and resumed to yield two BlockRecords in the Result Store;
because the read loop never flushes a block still open at end-of-file, a
file in which the resumed run lasts to the end stores only the first block
(the second is opened — the tracker ends `in_block` — but dropped). -/
theorem C5_resumed_block_dropped_at_eof :
    (okSt (deconstruct_log_file false true 96 4096 C5lines)).blocks.length = 1 ∧
    (okSt (deconstruct_log_file false true 96 4096 C5lines)).chunk = true := by
  refine ⟨by decide, by decide⟩

/-- Claim C6: when one of the four required parameters (core count, x/y/z
cell counts) never occurs in the file, `compute_sim_parameters` fails with
an error (the `TypeError` of multiplying `None`), and the per-file pipeline
of `main` therefore errors out before the region pass touches a single
line. -/
theorem C6_missing_param_aborts (fw bf : Bool) (raw : List (List Char))
    (ls : List LogLine)
    (h : neverMatches coreLabel raw ∨ neverMatches xLabel raw ∨
      neverMatches yLabel raw ∨ neverMatches zLabel raw) :
    isErr (compute_sim_parameters raw) = true ∧
    isErr (process_file fw bf raw ls) = true :=
  ⟨compute_missing raw h, process_file_err fw bf raw ls (compute_missing raw h)⟩

theorem C6_missing_param_aborts_witness :
    isErr (compute_sim_parameters C6raw) = true ∧
    isErr (process_file true true C6raw []) = true :=
  C6_missing_param_aborts true true C6raw []
    (Or.inl (by
      show ∀ l ∈ C6raw, containsSub coreLabel l = false
      decide))

/-- Claim C7: the parameter scan retains, for each of the four fields, the
first extraction from a line carrying that field's label and ignores all
later matching lines; and on the concrete four-line scenario it yields core
count 96, cells-per-block 4096 and total cells 393216. -/
theorem C7_first_hit_retention (raw : List (List Char)) (st0 st1 : ScanState)
    (h : scanAll st0 raw = .ok st1) :
    (st1.n_cores = optOr st0.n_cores (firstCore raw) ∧
     st1.nxb = optOr st0.nxb (firstZone xLabel raw) ∧
     st1.nyb = optOr st0.nyb (firstZone yLabel raw) ∧
     st1.nzb = optOr st0.nzb (firstZone zLabel raw)) ∧
    ((paramsOf (compute_sim_parameters demoRaw)).n_cores = 96 ∧
     (paramsOf (compute_sim_parameters demoRaw)).n_cells_per_block = 4096 ∧
     (paramsOf (compute_sim_parameters demoRaw)).n_cells = 393216 ∧
     isErr (compute_sim_parameters demoRaw) = false) :=
  ⟨scanAll_spec raw st0 st1 h, by refine ⟨?_, ?_, ?_, ?_⟩ <;> decide⟩

theorem C7_first_hit_retention_witness :
    (demoScan.n_cores = optOr ScanState.init.n_cores (firstCore demoRaw) ∧
     demoScan.nxb = optOr ScanState.init.nxb (firstZone xLabel demoRaw) ∧
     demoScan.nyb = optOr ScanState.init.nyb (firstZone yLabel demoRaw) ∧
     demoScan.nzb = optOr ScanState.init.nzb (firstZone zLabel demoRaw)) ∧
    ((paramsOf (compute_sim_parameters demoRaw)).n_cores = 96 ∧
     (paramsOf (compute_sim_parameters demoRaw)).n_cells_per_block = 4096 ∧
     (paramsOf (compute_sim_parameters demoRaw)).n_cells = 393216 ∧
     isErr (compute_sim_parameters demoRaw) = false) :=
  C7_first_hit_retention demoRaw ScanState.init demoScan rfl

/-- Claim C8: under any sequence of `open_file` / `close_file` calls from
the constructor state the two flags are never simultaneously true, and
every event finalized into `self.fileIOs` has `close = True`,
`open = False`, with its `wall_time` a finalized seconds value — the trace
of having gone through open and then exactly one close before storage. -/
theorem C8_flag_invariant (ops : List FOp) (fw bf : Bool) (nc ncpb : ℚ)
    (ls : List LogLine) (st : DState) (k : Nat) (f : FileIOEvent)
    (h : deconstruct_log_file fw bf nc ncpb ls = .ok st)
    (hf : (k, f) ∈ st.fileIOs) :
    ((applyOps (FileIOEvent.init 0) ops).open_flag &&
      (applyOps (FileIOEvent.init 0) ops).close_flag) = false ∧
    f.close_flag = true ∧ f.open_flag = false ∧
    f.wall_time = .secsVal (secsOf f.wall_time) := by
  obtain ⟨cnt1, hi⟩ := deconstruct_inv fw bf nc ncpb ls st h
  obtain ⟨i1, i2, i3, -, -⟩ := hi.iosGood (k, f) hf
  exact ⟨applyOps_mutex ops (FileIOEvent.init 0) rfl, i1, i2, i3⟩

theorem C8_flag_invariant_witness :
    ((applyOps (FileIOEvent.init 0) [FOp.opn, FOp.cls]).open_flag &&
      (applyOps (FileIOEvent.init 0) [FOp.opn, FOp.cls]).close_flag) = false ∧
    C4ev.close_flag = true ∧ C4ev.open_flag = false ∧
    C4ev.wall_time = .secsVal (secsOf C4ev.wall_time) :=
  C8_flag_invariant [FOp.opn, FOp.cls] true true 96 4096 C4lines C4st 0 C4ev rfl
    (List.Mem.head _)

/-- Claim C9: a checkpoint/plot line whose marker is `close:` with no prior
`open:` makes `search_file_write_stats` subtract the event's constructor
integer `0` from a `datetime`: an uncaught `TypeError`, here the explicit
error outcome of the whole pass on a one-line log. -/
theorem C9_orphan_close_type_error :
    deconstruct_log_file true false 96 4096 C9lines = .error .typeError ∧
    isErr (deconstruct_log_file true false 96 4096 C9lines) = true :=
  ⟨rfl, by decide⟩

/-- Claim C10: the two result stores are append-only across any continuation
of the read loop — every record present in the store at any point is still
there, unchanged and at its position, after any further lines are processed
(new records are freshly constructed and appended; stored ones are never
rewritten). -/
theorem C10_store_frame (fw bf : Bool) (nc ncpb : ℚ) (ls : List LogLine)
    (st st1 : DState) (cnt : Nat)
    (h : runFrom fw bf nc ncpb st cnt ls = .ok st1) :
    st1.blocks.take st.blocks.length = st.blocks ∧
    st.blocks.length ≤ st1.blocks.length ∧
    st1.fileIOs.take st.fileIOs.length = st.fileIOs ∧
    st.fileIOs.length ≤ st1.fileIOs.length := by
  obtain ⟨⟨tb, hb⟩, ⟨tf, hfe⟩⟩ := runFrom_extends fw bf nc ncpb ls st cnt st1 h
  rw [hb, hfe]
  refine ⟨take_append_self _ _, by simp, take_append_self _ _, by simp⟩

theorem C10_store_frame_witness :
    C10end.blocks.take C4st.blocks.length = C4st.blocks ∧
    C4st.blocks.length ≤ C10end.blocks.length ∧
    C10end.fileIOs.take C4st.fileIOs.length = C4st.fileIOs ∧
    C4st.fileIOs.length ≤ C10end.fileIOs.length :=
  C10_store_frame true true 96 4096 C10more C4st C10end 6 rfl
